import Mathlib

/-!
Verification of the Local Change Analysis subsystem of `ai-commit`.

The development shallowly embeds two Rust components:

* `preprocess_diff_for_ai` (src/diff/mod.rs): a line-oriented transform of a
  unified diff.  Rust `&str` values are modelled as `List Char`; Rust
  `str::lines` is modelled byte-for-byte (split-inclusive on newline, then
  strip a trailing `\n` and, if one was stripped, a trailing `\r`).

* `get_binary_status_map` and `get_staged_changes_summary`
  (src/git/mod.rs): parsers over raw NUL-separated byte reports.  Raw bytes
  are modelled as `List Nat`; Rust `&str` values obtained via
  `str::from_utf8` are modelled as their underlying byte lists guarded by an
  explicit UTF-8 validity check; byte-slicing of strings carries Rust's
  char-boundary panic, modelled as a dedicated error constructor.
-/

set_option linter.unusedVariables false

/-! ## Diff annotator (src/diff/mod.rs, `preprocess_diff_for_ai`) -/

/-- The fixed literal prefixes recognized as diff metadata headers, in the
order the Rust code tests them. -/
def diffHeaderPrefixes : List (List Char) :=
  ["+++".toList, "---".toList, "diff --git".toList, "index".toList,
   "old mode".toList, "new mode".toList, "deleted file mode".toList,
   "new file mode".toList, "copy from".toList, "copy to".toList,
   "rename from".toList, "rename to".toList, "similarity index".toList,
   "dissimilarity index".toList, "Binary files".toList, "@@".toList]

/-- `line.starts_with(p)` for one of the fixed header prefixes. -/
def isDiffHeaderLine (l : List Char) : Bool :=
  diffHeaderPrefixes.any (fun p => p.isPrefixOf l)

/-- The per-line transform inside the `for line in raw_diff.lines()` loop of
`preprocess_diff_for_ai`. -/
def processDiffLine (l : List Char) : List Char :=
  if isDiffHeaderLine l then l
  else if l.head? = some '+' then "[ADDED_LINE]: ".toList ++ l.tail
  else if l.head? = some '-' then "[REMOVED_LINE]: ".toList ++ l.tail
  else l

/-- Rust `str::split_inclusive('\n')`: pieces keep their terminating newline;
no empty final piece is produced. -/
def splitInclusiveNL : List Char → List (List Char)
  | [] => []
  | c :: rest =>
    if c = '\n' then ['\n'] :: splitInclusiveNL rest
    else
      match splitInclusiveNL rest with
      | [] => [[c]]
      | l :: ls => (c :: l) :: ls

/-- The map applied by Rust `str::lines` to each inclusive piece: strip one
trailing `'\n'`; if one was stripped, additionally strip one trailing
`'\r'`. -/
def stripLineEnd (l : List Char) : List Char :=
  match l.reverse with
  | '\n' :: rest =>
    match rest with
    | '\r' :: rest2 => rest2.reverse
    | _ => rest.reverse
  | _ => l

/-- Rust `str::lines`. -/
def strLines (s : List Char) : List (List Char) :=
  (splitInclusiveNL s).map stripLineEnd

/-- Rust `Vec::<String>::join("\n")`. -/
def joinNL : List (List Char) → List Char
  | [] => []
  | [l] => l
  | l :: ls => l ++ '\n' :: joinNL ls

/-- `preprocess_diff_for_ai` (src/diff/mod.rs lines 1-31). -/
def preprocess_diff_for_ai (raw_diff : List Char) : List Char :=
  joinNL ((strLines raw_diff).map processDiffLine)

/-! ## Byte utilities shared by both classifier passes -/

/-- UTF-8 bytes of an ASCII string literal (every literal used by the git
module is ASCII, where each char is one byte). -/
def strBytes (s : String) : List Nat := s.toList.map Char.toNat

/-- A UTF-8 continuation byte (`0x80..=0xBF`). -/
def isUtf8Cont (b : Nat) : Bool := 0x80 ≤ b && b ≤ 0xBF

/-- Validity of a byte sequence as UTF-8, as checked by Rust
`str::from_utf8` (rejecting overlong forms, surrogates and values above
`U+10FFFF`). -/
def isValidUtf8 : List Nat → Bool
  | [] => true
  | b :: rest =>
    if b ≤ 0x7F then isValidUtf8 rest
    else if 0xC2 ≤ b && b ≤ 0xDF then
      match rest with
      | c1 :: rest2 => isUtf8Cont c1 && isValidUtf8 rest2
      | [] => false
    else if b = 0xE0 then
      match rest with
      | c1 :: c2 :: rest2 =>
        (0xA0 ≤ c1 && c1 ≤ 0xBF) && isUtf8Cont c2 && isValidUtf8 rest2
      | _ => false
    else if (0xE1 ≤ b && b ≤ 0xEC) || b = 0xEE || b = 0xEF then
      match rest with
      | c1 :: c2 :: rest2 => isUtf8Cont c1 && isUtf8Cont c2 && isValidUtf8 rest2
      | _ => false
    else if b = 0xED then
      match rest with
      | c1 :: c2 :: rest2 =>
        (0x80 ≤ c1 && c1 ≤ 0x9F) && isUtf8Cont c2 && isValidUtf8 rest2
      | _ => false
    else if b = 0xF0 then
      match rest with
      | c1 :: c2 :: c3 :: rest2 =>
        (0x90 ≤ c1 && c1 ≤ 0xBF) && isUtf8Cont c2 && isUtf8Cont c3 && isValidUtf8 rest2
      | _ => false
    else if 0xF1 ≤ b && b ≤ 0xF3 then
      match rest with
      | c1 :: c2 :: c3 :: rest2 =>
        isUtf8Cont c1 && isUtf8Cont c2 && isUtf8Cont c3 && isValidUtf8 rest2
      | _ => false
    else if b = 0xF4 then
      match rest with
      | c1 :: c2 :: c3 :: rest2 =>
        (0x80 ≤ c1 && c1 ≤ 0x8F) && isUtf8Cont c2 && isUtf8Cont c3 && isValidUtf8 rest2
      | _ => false
    else false

/-- Rust `str::is_char_boundary` on the underlying bytes: index 0 is always a
boundary, index `len` is a boundary, and an interior index is a boundary iff
the byte there is not a continuation byte. -/
def isCharBoundary (s : List Nat) (i : Nat) : Bool :=
  if i = 0 then true
  else
    match s[i]? with
    | none => i == s.length
    | some b => b < 0x80 || 0xC0 ≤ b

/-- `bytes.split(|&b| b == 0).filter(|s| !s.is_empty())`: NUL-separated
fields with empty fields discarded. -/
def nulFields (bytes : List Nat) : List (List Nat) :=
  (bytes.splitOn 0).filter (fun f => !f.isEmpty)

/-- Errors surfaced by the classifier.  `utf8Field` models a
`str::from_utf8` failure on the given field, `missingOldPath` /
`missingNewPath` model the `with_context(..)?` failures of
`get_binary_status_map` when the field iterator is exhausted (tagged with the
offending lead segment), and `panicBoundary` models the Rust panic raised by
byte-slicing a `&str` at a non-char-boundary index. -/
inductive GitError where
  | utf8Field (field : List Nat)
  | missingOldPath (lead : List Nat)
  | missingNewPath (lead : List Nat)
  | panicBoundary (s : List Nat) (i : Nat)
deriving DecidableEq

instance {ε α : Type} [DecidableEq ε] [DecidableEq α] : DecidableEq (Except ε α) := fun x y =>
  match x, y with
  | .ok a, .ok b => if h : a = b then .isTrue (by rw [h]) else .isFalse (by simp [h])
  | .error a, .error b => if h : a = b then .isTrue (by rw [h]) else .isFalse (by simp [h])
  | .ok _, .error _ => .isFalse (by simp)
  | .error _, .ok _ => .isFalse (by simp)

/-! ## Pass A: binary-status map (src/git/mod.rs, `get_binary_status_map`) -/

/-- The transient binary-status map: association list keyed by path bytes,
most recent insertion first (extensionally the Rust `HashMap`). -/
abbrev BinMap : Type := List (List Nat × Bool)

/-- `HashMap::insert` (later insertions shadow earlier ones under lookup). -/
def insertBM (m : BinMap) (k : List Nat) (v : Bool) : BinMap := (k, v) :: m

/-- `binary_map.get(path).copied().unwrap_or(false)`. -/
def getBM (m : BinMap) (k : List Nat) : Bool := (List.lookup k m).getD false

/-- `s.parse::<u32>().is_ok()` on the bytes of a string: an optional leading
`'+'`, then at least one decimal digit, with the value below `2 ^ 32`. -/
def parseU32Ok (s : List Nat) : Bool :=
  let t := if s.head? = some 0x2B then s.tail else s
  !t.isEmpty && t.all (fun b => 0x30 ≤ b && b ≤ 0x39)
    && t.foldl (fun acc b => acc * 10 + (b - 0x30)) 0 < 2 ^ 32

/-- The similarity-score test on the third tab-column:
`third.ends_with('%') && third.len() > 1 && third[..len-1].parse::<u32>().is_ok()`. -/
def isSimilarity (t : List Nat) : Bool :=
  t.getLast? = some 0x25 && decide (1 < t.length)
    && parseU32Ok (t.take (t.length - 1))

/-- The `while let Some(first_segment_bytes) = fields_iter.next()` loop of
`get_binary_status_map` (src/git/mod.rs lines 114-200), acting on the
NUL-separated non-empty fields. -/
def numstatLoop : List (List Nat) → BinMap → Except GitError BinMap
  | [], m => .ok m
  | lead :: rest, m =>
    if isValidUtf8 lead = false then .error (.utf8Field lead)
    else
      match lead.splitOn 9 with
      | [a, d, t] =>
        let isBin := a == [0x2D] && d == [0x2D]
        if t.isEmpty then
          match rest with
          | [] => .error (.missingOldPath lead)
          | [_old] => .error (.missingNewPath lead)
          | _old :: newp :: rest2 =>
            if isValidUtf8 newp = false then .error (.utf8Field newp)
            else numstatLoop rest2 (insertBM m newp isBin)
        else if isSimilarity t then
          match rest with
          | [] => .error (.missingOldPath lead)
          | [_old] => .error (.missingNewPath lead)
          | _old :: newp :: rest2 =>
            if isValidUtf8 newp = false then .error (.utf8Field newp)
            else numstatLoop rest2 (insertBM m newp isBin)
        else numstatLoop rest (insertBM m t isBin)
      | [a, d] =>
        let isBin := a == [0x2D] && d == [0x2D]
        match rest with
        | [] => .error (.missingOldPath lead)
        | [_old] => .error (.missingNewPath lead)
        | _old :: newp :: rest2 =>
          if isValidUtf8 newp = false then .error (.utf8Field newp)
          else numstatLoop rest2 (insertBM m newp isBin)
      | _ => numstatLoop rest m

/-- `get_binary_status_map` (src/git/mod.rs lines 101-202), as a function of
the raw bytes of the `diff --staged --numstat -z` report. -/
def get_binary_status_map (numstatBytes : List Nat) : Except GitError BinMap :=
  if numstatBytes = [] ∨ numstatBytes.all (· == 0) then .ok []
  else numstatLoop (nulFields numstatBytes) []

/-! ## Pass B: status interpretation (src/git/mod.rs, `get_staged_changes_summary`) -/

/-- `StagedChangesSummary` (src/git/mod.rs lines 95-99); entries are the
UTF-8 bytes of the pushed description strings. -/
structure StagedChangesSummary where
  binary_file_changes : List (List Nat)
  structure_changes : List (List Nat)
deriving DecidableEq

/-- The two byte-slicings of a status entry lead,
`&entry_lead_str[0..2]` and `&entry_lead_str[3..]` (src/git/mod.rs lines
235-236), including Rust's char-boundary panics. -/
def sliceStatusLead (lead : List Nat) : Except GitError (List Nat × List Nat) :=
  if isCharBoundary lead 2 = false then .error (.panicBoundary lead 2)
  else if isCharBoundary lead 3 = false then .error (.panicBoundary lead 3)
  else .ok (lead.take 2, lead.drop 3)

/-- The `match idx_status` body (src/git/mod.rs lines 256-337): the pair of
lists (in order: pushes to `binary_file_changes`, pushes to
`structure_changes`) contributed by one status record. -/
def emitStatusRecord (m : BinMap) (codes path1 : List Nat)
    (oldOpt : Option (List Nat)) : List (List Nat) × List (List Nat) :=
  if codes.head? = some 0x41 then
    ((if getBM m path1 then [strBytes "added binary file: " ++ path1] else []), [])
  else if codes.head? = some 0x44 then
    ([], [strBytes "deleted file: " ++ path1])
  else if codes.head? = some 0x52 then
    match oldOpt with
    | some old =>
      if !old.isEmpty && !path1.isEmpty then
        ((if getBM m path1 then
            [strBytes "renamed binary file: " ++ old ++ strBytes " to " ++ path1]
          else []),
         [strBytes "renamed: " ++ old ++ strBytes " to " ++ path1])
      else ([], [])
    | none => ([], [])
  else if codes.head? = some 0x4D then
    ((if getBM m path1 then [strBytes "modified binary file: " ++ path1] else []), [])
  else if codes.head? = some 0x54 then
    ((if getBM m path1 then [strBytes "type changed to binary: " ++ path1] else []),
     [strBytes "type changed for: " ++ path1])
  else if codes.head? = some 0x43 then
    ((if getBM m path1 then [strBytes "copied binary file to: " ++ path1] else []),
     (match oldOpt with
      | some old => [strBytes "copied: " ++ old ++ strBytes " to " ++ path1]
      | none => []))
  else ([], [])

/-- The `while let Some(entry_lead_bytes) = status_fields_iter.next()` loop
of `get_staged_changes_summary` (src/git/mod.rs lines 223-338), returning
the accumulated pushes (before sorting). -/
def statusLoop (m : BinMap) :
    List (List Nat) → Except GitError (List (List Nat) × List (List Nat))
  | [] => .ok ([], [])
  | lead :: rest =>
    if isValidUtf8 lead = false then .error (.utf8Field lead)
    else if lead.length < 3 then statusLoop m rest
    else
      match sliceStatusLead lead with
      | .error e => .error e
      | .ok (codes, path1) =>
        if codes.head? = some 0x52 ∨ codes.head? = some 0x43 then
          match rest with
          | [] => .ok (emitStatusRecord m codes path1 none)
          | old :: rest2 =>
            if isValidUtf8 old = false then .error (.utf8Field old)
            else
              match statusLoop m rest2 with
              | .error e => .error e
              | .ok (b2, s2) =>
                let p := emitStatusRecord m codes path1 (some old)
                .ok (p.1 ++ b2, p.2 ++ s2)
        else
          match statusLoop m rest with
          | .error e => .error e
          | .ok (b2, s2) =>
            let p := emitStatusRecord m codes path1 none
            .ok (p.1 ++ b2, p.2 ++ s2)

/-- Rust's byte-lexicographic `≤` on strings (`Ord` on `String`). -/
def bytesLe : List Nat → List Nat → Bool
  | [], _ => true
  | _ :: _, [] => false
  | a :: as, b :: bs => if a < b then true else if b < a then false else bytesLe as bs

/-- `bytesLe` as a relation. -/
def BytesLE (a b : List Nat) : Prop := bytesLe a b = true

instance : DecidableRel BytesLE := fun a b => inferInstanceAs (Decidable (_ = true))

/-- `Vec::<String>::sort()`: a sort with respect to byte-lexicographic
order. -/
def sortBytes (l : List (List Nat)) : List (List Nat) := List.insertionSort BytesLE l

/-- `get_staged_changes_summary` (src/git/mod.rs lines 204-342), as a
function of the raw bytes of the `status --porcelain=v1 -z
--untracked-files=no` report and of the numstat report consumed by
`get_binary_status_map`. -/
def get_staged_changes_summary (statusBytes numstatBytes : List Nat) :
    Except GitError StagedChangesSummary :=
  if statusBytes = [] ∨ statusBytes.all (· == 0) then .ok ⟨[], []⟩
  else
    match get_binary_status_map numstatBytes with
    | .error e => .error e
    | .ok m =>
      match statusLoop m (nulFields statusBytes) with
      | .error e => .error e
      | .ok (b, s) => .ok ⟨sortBytes b, sortBytes s⟩

/-! ## Basic helper lemmas -/

theorem head?_take_two (lead : List Nat) : (lead.take 2).head? = lead.head? := by
  cases lead <;> simp

/-! ## Claim theorems -/

/-- Claim C3: `preprocess_diff_for_ai` transforms each line by inspecting
only position 0: a non-header line starting with `'+'` becomes
`"[ADDED_LINE]: "` followed by the rest of the line verbatim, a non-header
line starting with `'-'` becomes `"[REMOVED_LINE]: "` plus the remainder,
header lines and all other lines pass through unchanged; in particular
`"+foo"` maps to `"[ADDED_LINE]: foo"`, `"-bar"` to `"[REMOVED_LINE]: bar"`,
and `" baz"`, `"baz"` and `"@@ -1,2 +1,2 @@"` are unchanged. -/
theorem claim_C3 (l : List Char) :
    (isDiffHeaderLine l = false → l.head? = some '+' →
      processDiffLine l = "[ADDED_LINE]: ".toList ++ l.tail) ∧
    (isDiffHeaderLine l = false → l.head? = some '-' →
      processDiffLine l = "[REMOVED_LINE]: ".toList ++ l.tail) ∧
    (isDiffHeaderLine l = true → processDiffLine l = l) ∧
    (l.head? ≠ some '+' → l.head? ≠ some '-' → processDiffLine l = l) ∧
    processDiffLine "+foo".toList = "[ADDED_LINE]: foo".toList ∧
    processDiffLine "-bar".toList = "[REMOVED_LINE]: bar".toList ∧
    processDiffLine " baz".toList = " baz".toList ∧
    processDiffLine "baz".toList = "baz".toList ∧
    processDiffLine "@@ -1,2 +1,2 @@".toList = "@@ -1,2 +1,2 @@".toList := by
  refine ⟨?_, ?_, ?_, ?_, by decide, by decide, by decide, by decide, by decide⟩
  · intro h hp; simp [processDiffLine, h, hp]
  · intro h hp; simp [processDiffLine, h, hp]
  · intro h; simp [processDiffLine, h]
  · intro h1 h2; simp [processDiffLine, h1, h2]

theorem claim_C3_witness :
    isDiffHeaderLine "+x".toList = false ∧ ("+x".toList).head? = some '+' ∧
    processDiffLine "+x".toList = "[ADDED_LINE]: ".toList ++ ("+x".toList).tail :=
  ⟨by decide, by decide, (claim_C3 "+x".toList).1 (by decide) (by decide)⟩

/-- Claim C6: if the short-status report bytes are empty or consist only of
NUL bytes, `get_staged_changes_summary` returns the default summary (both
lists empty) and no error, for every numstat report (which is not
consulted). -/
theorem claim_C6 (statusBytes numstatBytes : List Nat)
    (h : statusBytes = [] ∨ statusBytes.all (· == 0)) :
    get_staged_changes_summary statusBytes numstatBytes = .ok ⟨[], []⟩ := by
  unfold get_staged_changes_summary
  rw [if_pos h]

theorem claim_C6_witness :
    (([0, 0] : List Nat) = [] ∨ ([0, 0] : List Nat).all (· == 0)) ∧
    get_staged_changes_summary [0, 0] [5] = .ok ⟨[], []⟩ :=
  ⟨by decide, claim_C6 [0, 0] [5] (by decide)⟩

/-- Claim C10: both passes split on NUL bytes and discard all empty fields
before any interpretation, so an empty NUL-delimited field is never observed
as a field: (1) every field produced by `nulFields` is non-empty; (2) for a
rename record followed by an empty old-path field, the parser consumes the
following record's lead in its place (here the lead `"D  x"` becomes the old
path) instead of erroring; (3) inserting an extra NUL leaves the result
unchanged. -/
theorem claim_C10 :
    (∀ (bytes : List Nat) (f : List Nat), f ∈ nulFields bytes → f ≠ []) ∧
    get_staged_changes_summary
        (strBytes "R  new" ++ [0, 0] ++ strBytes "D  x" ++ [0]) [] =
      .ok ⟨[], [strBytes "renamed: D  x to new"]⟩ ∧
    get_staged_changes_summary (strBytes "R  b" ++ [0, 0] ++ strBytes "old" ++ [0]) [] =
      get_staged_changes_summary (strBytes "R  b" ++ [0] ++ strBytes "old" ++ [0]) [] := by
  refine ⟨?_, by decide, by decide⟩
  intro bytes f hf hnil
  rw [hnil] at hf
  have h2 := (List.mem_filter.mp hf).2
  simp at h2

theorem claim_C10_witness :
    (strBytes "a" ∈ nulFields (strBytes "a" ++ [0])) ∧ strBytes "a" ≠ [] :=
  ⟨by decide, claim_C10.1 (strBytes "a" ++ [0]) (strBytes "a") (by decide)⟩

/-- Claim C1 counterexample: a truncated report whose single record has
rename code `'R'` with no subsequent NUL field (`"R  b"`) does NOT fail:
`get_staged_changes_summary` returns the default summary (claim C1 predicts
a parse error and no summary). -/
theorem claim_C1_counterexample :
    get_staged_changes_summary (strBytes "R  b") [] = .ok ⟨[], []⟩ := by decide

/-- Claim C1 (amended): a status record with first code `'R'` or `'C'` whose
old-path field is missing (the field iterator is exhausted) does not fail
the call: the `'R'` record contributes no entry at all, and the `'C'` record
contributes no structure entry but still contributes
`"copied binary file to: <new>"` exactly when the map marks the new path
binary. -/
theorem claim_C1 (m : BinMap) (lead : List Nat)
    (hv : isValidUtf8 lead = true) (h3 : 3 ≤ lead.length)
    (hb2 : isCharBoundary lead 2 = true) (hb3 : isCharBoundary lead 3 = true) :
    (lead.head? = some 0x52 → statusLoop m [lead] = .ok ([], [])) ∧
    (lead.head? = some 0x43 →
      statusLoop m [lead] =
        .ok ((if getBM m (lead.drop 3) then
                [strBytes "copied binary file to: " ++ lead.drop 3]
              else []), [])) := by
  have hnl : ¬ lead.length < 3 := by omega
  have hslice : sliceStatusLead lead = Except.ok (lead.take 2, lead.drop 3) := by
    unfold sliceStatusLead
    rw [hb2, hb3]
    rfl
  have hcodes := head?_take_two lead
  constructor
  · intro hR
    simp only [statusLoop, hv, Bool.true_eq_false, if_false, hnl, ite_false, hslice,
      hcodes, hR]
    simp [emitStatusRecord, hcodes, hR]
  · intro hC
    simp only [statusLoop, hv, Bool.true_eq_false, if_false, hnl, ite_false, hslice,
      hcodes, hC]
    simp [emitStatusRecord, hcodes, hC]

theorem claim_C1_witness :
    isValidUtf8 (strBytes "R  b") = true ∧ 3 ≤ (strBytes "R  b").length ∧
    isCharBoundary (strBytes "R  b") 2 = true ∧
    isCharBoundary (strBytes "R  b") 3 = true ∧
    (strBytes "R  b").head? = some 0x52 ∧
    statusLoop [] [strBytes "R  b"] = .ok ([], []) :=
  ⟨by decide, by decide, by decide, by decide, by decide,
   (claim_C1 [] (strBytes "R  b") (by decide) (by decide) (by decide) (by decide)).1
     (by decide)⟩

/-- Claim C2 counterexample: a `'C'` record with an empty new path (lead
`"C  "`) and old path `"a"` DOES emit `"copied: a to "` into
`structure_changes` (claim C2 predicts no copy entry when either path is
empty). -/
theorem claim_C2_counterexample :
    get_staged_changes_summary (strBytes "C  " ++ [0] ++ strBytes "a") [] =
      .ok ⟨[], [strBytes "copied: a to "]⟩ := by decide

/-- Claim C2 (amended): for a record whose first status code is `'C'`, the
`"copied: <old> to <new>"` structure entry is pushed exactly when the
old-path field is present, regardless of whether either path is empty; and
`"copied binary file to: <new>"` is pushed exactly when the binary-status
map marks the new path as binary, regardless of old-path presence or path
emptiness. -/
theorem claim_C2 (m : BinMap) (lead old : List Nat) (rest : List (List Nat))
    (hv : isValidUtf8 lead = true) (hvo : isValidUtf8 old = true)
    (h3 : 3 ≤ lead.length)
    (hb2 : isCharBoundary lead 2 = true) (hb3 : isCharBoundary lead 3 = true)
    (hC : lead.head? = some 0x43) :
    statusLoop m (lead :: old :: rest) =
      (statusLoop m rest).map (fun r =>
        ((if getBM m (lead.drop 3) then
            [strBytes "copied binary file to: " ++ lead.drop 3]
          else []) ++ r.1,
         (strBytes "copied: " ++ old ++ strBytes " to " ++ lead.drop 3) :: r.2)) ∧
    statusLoop m [lead] =
      .ok ((if getBM m (lead.drop 3) then
              [strBytes "copied binary file to: " ++ lead.drop 3]
            else []), []) := by
  have hnl : ¬ lead.length < 3 := by omega
  have hslice : sliceStatusLead lead = Except.ok (lead.take 2, lead.drop 3) := by
    unfold sliceStatusLead
    rw [hb2, hb3]
    rfl
  have hcodes := head?_take_two lead
  constructor
  · simp only [statusLoop, hv, Bool.true_eq_false, if_false, hnl, ite_false, hslice,
      hcodes, hC, hvo]
    cases hres : statusLoop m rest with
    | error e => simp [emitStatusRecord, hcodes, hC, Except.map]
    | ok p => simp [emitStatusRecord, hcodes, hC, Except.map]
  · simp only [statusLoop, hv, Bool.true_eq_false, if_false, hnl, ite_false, hslice,
      hcodes, hC]
    simp [emitStatusRecord, hcodes, hC]

theorem claim_C2_witness :
    (strBytes "C  b").head? = some 0x43 ∧
    statusLoop [] (strBytes "C  b" :: strBytes "a" :: []) =
      (statusLoop ([] : BinMap) ([] : List (List Nat))).map (fun r =>
        ((if getBM [] ((strBytes "C  b").drop 3) then
            [strBytes "copied binary file to: " ++ (strBytes "C  b").drop 3]
          else []) ++ r.1,
         (strBytes "copied: " ++ strBytes "a" ++ strBytes " to " ++
            (strBytes "C  b").drop 3) :: r.2)) :=
  ⟨by decide,
   (claim_C2 [] (strBytes "C  b") (strBytes "a") [] (by decide) (by decide)
     (by decide) (by decide) (by decide) (by decide)).1⟩

/-- Claim C5: per-record behavior of `get_staged_changes_summary`'s status
pass: `'D'` always pushes `"deleted file: <path>"` to `structure_changes`;
`'A'` / `'M'` push `"added binary file: <path>"` / `"modified binary file:
<path>"` to `binary_file_changes` exactly when the map marks the path
binary; `'T'` always pushes `"type changed for: <path>"` to
`structure_changes` and additionally `"type changed to binary: <path>"` to
`binary_file_changes` exactly when binary; any other unrecognized first code
produces no entry and does not fail the call; paths absent from the map
count as non-binary. -/
theorem claim_C5 (m : BinMap) (lead : List Nat) (rest : List (List Nat))
    (hv : isValidUtf8 lead = true) (h3 : 3 ≤ lead.length)
    (hb2 : isCharBoundary lead 2 = true) (hb3 : isCharBoundary lead 3 = true) :
    (lead.head? = some 0x44 →
      statusLoop m (lead :: rest) =
        (statusLoop m rest).map (fun r =>
          (r.1, (strBytes "deleted file: " ++ lead.drop 3) :: r.2))) ∧
    (lead.head? = some 0x41 →
      statusLoop m (lead :: rest) =
        (statusLoop m rest).map (fun r =>
          ((if getBM m (lead.drop 3) then
              [strBytes "added binary file: " ++ lead.drop 3]
            else []) ++ r.1, r.2))) ∧
    (lead.head? = some 0x4D →
      statusLoop m (lead :: rest) =
        (statusLoop m rest).map (fun r =>
          ((if getBM m (lead.drop 3) then
              [strBytes "modified binary file: " ++ lead.drop 3]
            else []) ++ r.1, r.2))) ∧
    (lead.head? = some 0x54 →
      statusLoop m (lead :: rest) =
        (statusLoop m rest).map (fun r =>
          ((if getBM m (lead.drop 3) then
              [strBytes "type changed to binary: " ++ lead.drop 3]
            else []) ++ r.1,
           (strBytes "type changed for: " ++ lead.drop 3) :: r.2))) ∧
    (∀ c, lead.head? = some c → c ≠ 0x41 → c ≠ 0x44 → c ≠ 0x52 → c ≠ 0x4D →
      c ≠ 0x54 → c ≠ 0x43 → statusLoop m (lead :: rest) = statusLoop m rest) ∧
    (∀ p, List.lookup p m = none → getBM m p = false) := by
  have hnl : ¬ lead.length < 3 := by omega
  have hslice : sliceStatusLead lead = Except.ok (lead.take 2, lead.drop 3) := by
    unfold sliceStatusLead
    rw [hb2, hb3]
    rfl
  have hcodes := head?_take_two lead
  refine ⟨?_, ?_, ?_, ?_, ?_, ?_⟩
  · intro hD
    simp only [statusLoop, hv, Bool.true_eq_false, if_false, hnl, ite_false, hslice,
      hcodes, hD]
    cases hres : statusLoop m rest with
    | error e => simp [emitStatusRecord, hcodes, hD, Except.map]
    | ok p => simp [emitStatusRecord, hcodes, hD, Except.map]
  · intro hA
    simp only [statusLoop, hv, Bool.true_eq_false, if_false, hnl, ite_false, hslice,
      hcodes, hA]
    cases hres : statusLoop m rest with
    | error e => simp [emitStatusRecord, hcodes, hA, Except.map]
    | ok p => simp [emitStatusRecord, hcodes, hA, Except.map]
  · intro hM
    simp only [statusLoop, hv, Bool.true_eq_false, if_false, hnl, ite_false, hslice,
      hcodes, hM]
    cases hres : statusLoop m rest with
    | error e => simp [emitStatusRecord, hcodes, hM, Except.map]
    | ok p => simp [emitStatusRecord, hcodes, hM, Except.map]
  · intro hT
    simp only [statusLoop, hv, Bool.true_eq_false, if_false, hnl, ite_false, hslice,
      hcodes, hT]
    cases hres : statusLoop m rest with
    | error e => simp [emitStatusRecord, hcodes, hT, Except.map]
    | ok p => simp [emitStatusRecord, hcodes, hT, Except.map]
  · intro c hc h41 h44 h52 h4D h54 h43
    simp only [statusLoop, hv, Bool.true_eq_false, if_false, hnl, ite_false, hslice,
      hcodes, hc]
    cases hres : statusLoop m rest with
    | error e => simp [emitStatusRecord, hcodes, hc, h41, h44, h52, h4D, h54, h43]
    | ok p => simp [emitStatusRecord, hcodes, hc, h41, h44, h52, h4D, h54, h43]
  · intro p hp
    simp [getBM, hp]

theorem claim_C5_witness :
    isValidUtf8 (strBytes "D  f.txt") = true ∧ 3 ≤ (strBytes "D  f.txt").length ∧
    isCharBoundary (strBytes "D  f.txt") 2 = true ∧
    isCharBoundary (strBytes "D  f.txt") 3 = true ∧
    (strBytes "D  f.txt").head? = some 0x44 ∧
    statusLoop [] [strBytes "D  f.txt"] =
      (statusLoop ([] : BinMap) ([] : List (List Nat))).map
        (fun r => (r.1, (strBytes "deleted file: " ++ (strBytes "D  f.txt").drop 3) :: r.2)) :=
  ⟨by decide, by decide, by decide, by decide, by decide,
   (claim_C5 [] (strBytes "D  f.txt") [] (by decide) (by decide) (by decide)
     (by decide)).1 (by decide)⟩

/-- Claim C4 counterexample: the numstat lead `"-\t-\t4294967296%"` has a
third column that is literally digits followed by `'%'`, yet the code does
NOT consume two further fields and key by the new path `"b"`: the u32 parse
of `"4294967296"` overflows, so the third column itself becomes the key
(claim C4 predicts the map to be keyed by `"b"`). -/
theorem claim_C4_counterexample :
    get_binary_status_map
        (strBytes "-\t-\t4294967296%" ++ [0] ++ strBytes "a" ++ [0] ++
          strBytes "b" ++ [0]) =
      .ok [(strBytes "4294967296%", true)] := by decide

/-- Claim C4 (amended): `get_binary_status_map` classifies a record as
binary iff both of the first two tab-columns of its lead are `"-"`.  A
3-column lead whose third column is empty, or whose third column ends with
`'%'`, has length above one, and whose part before the `'%'` parses as a
decimal `u32` (optionally `'+'`-signed, value below `2 ^ 32` — the
`isSimilarity` test), consumes exactly two further NUL fields and keys the
map by the new path; otherwise the third column is itself the key.  A
2-column lead always consumes exactly two further NUL fields and keys by the
new path.  Any other tab-column count is silently skipped without failing
the call.  An insertion keys the map at the given path. -/
theorem claim_C4 (m : BinMap) (lead : List Nat) (rest : List (List Nat))
    (hv : isValidUtf8 lead = true) :
    (∀ a d t, lead.splitOn 9 = [a, d, t] → t ≠ [] → isSimilarity t = false →
      numstatLoop (lead :: rest) m =
        numstatLoop rest (insertBM m t (a == [0x2D] && d == [0x2D]))) ∧
    (∀ a d t old newp rest2, lead.splitOn 9 = [a, d, t] →
      (t = [] ∨ isSimilarity t = true) → rest = old :: newp :: rest2 →
      isValidUtf8 newp = true →
      numstatLoop (lead :: rest) m =
        numstatLoop rest2 (insertBM m newp (a == [0x2D] && d == [0x2D]))) ∧
    (∀ a d old newp rest2, lead.splitOn 9 = [a, d] → rest = old :: newp :: rest2 →
      isValidUtf8 newp = true →
      numstatLoop (lead :: rest) m =
        numstatLoop rest2 (insertBM m newp (a == [0x2D] && d == [0x2D]))) ∧
    ((lead.splitOn 9).length ≠ 2 → (lead.splitOn 9).length ≠ 3 →
      numstatLoop (lead :: rest) m = numstatLoop rest m) ∧
    (∀ k v, getBM (insertBM m k v) k = v) := by
  refine ⟨?_, ?_, ?_, ?_, ?_⟩
  · intro a d t hsp ht hsim
    have ht' : t.isEmpty = false := by
      cases t with
      | nil => exact absurd rfl ht
      | cons _ _ => rfl
    simp only [numstatLoop, hv, Bool.true_eq_false, if_false, hsp, ht', hsim]
    simp
  · intro a d t old newp rest2 hsp hts hrest hvn
    subst hrest
    rcases hts with ht | hsim
    · subst ht
      simp only [numstatLoop, hv, Bool.true_eq_false, if_false, hsp, hvn,
        List.isEmpty_nil, if_true]
    · have ht' : t.isEmpty = false := by
        cases t with
        | nil => exact absurd hsim (by decide)
        | cons _ _ => rfl
      simp only [numstatLoop, hv, Bool.true_eq_false, if_false, hsp, ht', hsim, hvn,
        if_true]
      simp
  · intro a d old newp rest2 hsp hrest hvn
    subst hrest
    simp only [numstatLoop, hv, Bool.true_eq_false, if_false, hsp, hvn]
  · intro h2 h3'
    rcases hsp : lead.splitOn 9 with _ | ⟨a, _ | ⟨d, _ | ⟨t, _ | ⟨x, xs⟩⟩⟩⟩
    · simp only [numstatLoop, hv, Bool.true_eq_false, if_false, hsp]
    · simp only [numstatLoop, hv, Bool.true_eq_false, if_false, hsp]
    · rw [hsp] at h2; simp at h2
    · rw [hsp] at h3'; simp at h3'
    · simp only [numstatLoop, hv, Bool.true_eq_false, if_false, hsp]
  · intro k v
    simp [getBM, insertBM, List.lookup]

theorem claim_C4_witness :
    (strBytes "-\t-\t90%").splitOn 9 = [strBytes "-", strBytes "-", strBytes "90%"] ∧
    isSimilarity (strBytes "90%") = true ∧
    numstatLoop [strBytes "-\t-\t90%", strBytes "a", strBytes "b"] [] =
      numstatLoop []
        (insertBM [] (strBytes "b")
          (strBytes "-" == [0x2D] && strBytes "-" == [0x2D])) :=
  ⟨by decide, by decide,
   (claim_C4 [] (strBytes "-\t-\t90%") [strBytes "a", strBytes "b"]
     (by decide)).2.1 (strBytes "-") (strBytes "-") (strBytes "90%")
     (strBytes "a") (strBytes "b") [] (by decide) (Or.inr (by decide)) rfl
     (by decide)⟩

/-- Claim C9 counterexample: the status lead `[0x41, 0xC3, 0xA9, 0x20]`
(the valid UTF-8 string with the two-byte character at offsets 1-2, so byte
offset 2 falls inside a character) makes the byte-slicing
`&entry_lead_str[0..2]` panic; the call does NOT succeed (claim C9 predicts
extraction succeeds without panicking even in this situation). -/
theorem claim_C9_counterexample :
    get_staged_changes_summary [0x41, 0xC3, 0xA9, 0x20] [] =
      .error (.panicBoundary [0x41, 0xC3, 0xA9, 0x20] 2) := by decide

/-- Claim C9 (amended): for a status lead of byte length at least 3, the
slicing of the two status-code bytes and of the path succeeds exactly when
byte offsets 2 and 3 are char boundaries; in particular it succeeds for
every all-ASCII lead; when byte offset 2 falls inside a character, the Rust
code panics (modelled by the `panicBoundary` error). -/
theorem claim_C9 (lead : List Nat) (h3 : 3 ≤ lead.length) :
    ((∃ codes path1, sliceStatusLead lead = .ok (codes, path1)) ↔
      (isCharBoundary lead 2 = true ∧ isCharBoundary lead 3 = true)) ∧
    ((∀ b ∈ lead, b < 0x80) →
      sliceStatusLead lead = .ok (lead.take 2, lead.drop 3)) ∧
    (isCharBoundary lead 2 = false →
      sliceStatusLead lead = .error (.panicBoundary lead 2)) := by
  have hmain : isCharBoundary lead 2 = true → isCharBoundary lead 3 = true →
      sliceStatusLead lead = .ok (lead.take 2, lead.drop 3) := by
    intro hb2 hb3
    unfold sliceStatusLead
    rw [hb2, hb3]
    rfl
  refine ⟨⟨?_, ?_⟩, ?_, ?_⟩
  · rintro ⟨codes, path1, h⟩
    by_cases hb2 : isCharBoundary lead 2 = true
    · by_cases hb3 : isCharBoundary lead 3 = true
      · exact ⟨hb2, hb3⟩
      · exfalso
        rw [Bool.not_eq_true] at hb3
        unfold sliceStatusLead at h
        rw [hb2, hb3] at h
        simp at h
    · exfalso
      rw [Bool.not_eq_true] at hb2
      unfold sliceStatusLead at h
      rw [hb2] at h
      simp at h
  · rintro ⟨hb2, hb3⟩
    exact ⟨_, _, hmain hb2 hb3⟩
  · intro hascii
    have hb2 : isCharBoundary lead 2 = true := by
      unfold isCharBoundary
      rw [if_neg (by omega : ¬ (2 : Nat) = 0)]
      have h2lt : 2 < lead.length := by omega
      rw [List.getElem?_eq_getElem h2lt]
      have hx := hascii (lead[2]) (List.getElem_mem h2lt)
      simp [hx]
    have hb3 : isCharBoundary lead 3 = true := by
      unfold isCharBoundary
      rw [if_neg (by omega : ¬ (3 : Nat) = 0)]
      rcases Nat.lt_or_ge 3 lead.length with hlt | hge
      · rw [List.getElem?_eq_getElem hlt]
        have hx := hascii (lead[3]) (List.getElem_mem hlt)
        simp [hx]
      · have hlen : lead.length = 3 := by omega
        rw [List.getElem?_eq_none (by omega)]
        simp [hlen]
    exact hmain hb2 hb3
  · intro hb2
    unfold sliceStatusLead
    rw [hb2]
    rfl

theorem claim_C9_witness :
    3 ≤ (strBytes "A  x").length ∧ (∀ b ∈ strBytes "A  x", b < 0x80) ∧
    sliceStatusLead (strBytes "A  x") =
      .ok ((strBytes "A  x").take 2, (strBytes "A  x").drop 3) :=
  ⟨by decide, by decide,
   (claim_C9 (strBytes "A  x") (by decide)).2.1 (by decide)⟩

/-! ## Order lemmas for the byte-lexicographic sort -/

theorem bytesLe_total : ∀ a b : List Nat, bytesLe a b = true ∨ bytesLe b a = true := by
  intro a
  induction a with
  | nil => intro b; left; rfl
  | cons x xs ih =>
    intro b
    cases b with
    | nil => right; rfl
    | cons y ys =>
      rcases Nat.lt_trichotomy x y with hxy | hxy | hxy
      · left; simp [bytesLe, hxy]
      · subst hxy
        rcases ih ys with h | h
        · left; simp [bytesLe, h]
        · right; simp [bytesLe, h]
      · right; simp [bytesLe, hxy]

theorem bytesLe_trans :
    ∀ a b c : List Nat, bytesLe a b = true → bytesLe b c = true → bytesLe a c = true := by
  intro a
  induction a with
  | nil => intro b c _ _; rfl
  | cons x xs ih =>
    intro b c hab hbc
    cases b with
    | nil => exact absurd hab (by simp [bytesLe])
    | cons y ys =>
      cases c with
      | nil => exact absurd hbc (by simp [bytesLe])
      | cons z zs =>
        rcases Nat.lt_trichotomy x y with hxy | hxy | hxy
        · rcases Nat.lt_trichotomy y z with hyz | hyz | hyz
          · simp [bytesLe, show x < z by omega]
          · subst hyz; simp [bytesLe, hxy]
          · have h1 : ¬ y < z := by omega
            simp [bytesLe, h1, hyz] at hbc
        · subst hxy
          simp only [bytesLe, lt_self_iff_false, if_false] at hab
          rcases Nat.lt_trichotomy x z with hxz | hxz | hxz
          · simp [bytesLe, hxz]
          · subst hxz
            simp only [bytesLe, lt_self_iff_false, if_false] at hbc ⊢
            exact ih ys zs hab hbc
          · have h1 : ¬ x < z := by omega
            simp [bytesLe, h1, hxz] at hbc
        · have h1 : ¬ x < y := by omega
          simp [bytesLe, h1, hxy] at hab

instance : IsTotal (List Nat) BytesLE := ⟨bytesLe_total⟩

instance : IsTrans (List Nat) BytesLE := ⟨bytesLe_trans⟩

/-- Claim C7: whenever `get_staged_changes_summary` succeeds, both returned
lists are sorted with respect to byte-lexicographic order, and each is a
permutation of the corresponding list of pushes accumulated by the status
pass (so the sort step introduces no new entries and drops none: genuinely
repeated events are preserved). -/
theorem claim_C7 (statusBytes numstatBytes : List Nat) (s : StagedChangesSummary)
    (h : get_staged_changes_summary statusBytes numstatBytes = .ok s) :
    s.binary_file_changes.Sorted BytesLE ∧ s.structure_changes.Sorted BytesLE ∧
    (∀ m b0 s0, get_binary_status_map numstatBytes = .ok m →
      statusLoop m (nulFields statusBytes) = .ok (b0, s0) →
      ¬(statusBytes = [] ∨ statusBytes.all (· == 0)) →
      s.binary_file_changes.Perm b0 ∧ s.structure_changes.Perm s0) := by
  unfold get_staged_changes_summary at h
  by_cases hcond : statusBytes = [] ∨ statusBytes.all (· == 0)
  · rw [if_pos hcond] at h
    injection h with h
    subst h
    exact ⟨List.sorted_nil, List.sorted_nil,
      fun m b0 s0 _ _ hne => absurd hcond hne⟩
  · rw [if_neg hcond] at h
    split at h
    · simp at h
    · next m heq =>
      split at h
      · simp at h
      · next b0 s0 heq2 =>
        injection h with h
        subst h
        refine ⟨List.sorted_insertionSort _ _, List.sorted_insertionSort _ _, ?_⟩
        intro m' b0' s0' hg' hl' _
        rw [heq] at hg'
        injection hg' with hm
        subst hm
        rw [heq2] at hl'
        injection hl' with hp
        injection hp with hb hs
        subst hb
        subst hs
        exact ⟨List.perm_insertionSort _ _, List.perm_insertionSort _ _⟩

theorem claim_C7_witness :
    get_staged_changes_summary (strBytes "D  b" ++ [0] ++ strBytes "D  a" ++ [0]) [] =
      .ok ⟨[], [strBytes "deleted file: a", strBytes "deleted file: b"]⟩ ∧
    List.Sorted BytesLE [strBytes "deleted file: a", strBytes "deleted file: b"] :=
  ⟨by decide,
   (claim_C7 (strBytes "D  b" ++ [0] ++ strBytes "D  a" ++ [0]) []
     ⟨[], [strBytes "deleted file: a", strBytes "deleted file: b"]⟩
     (by decide)).2.1⟩

/-! ## Line-splitting lemmas for the annotator -/

theorem splitInclusiveNL_cons_newline (rest : List Char) :
    splitInclusiveNL ('\n' :: rest) = ['\n'] :: splitInclusiveNL rest := by
  simp [splitInclusiveNL]

theorem splitInclusiveNL_cons_other (x : Char) (rest : List Char) (hx : x ≠ '\n') :
    splitInclusiveNL (x :: rest) =
      match splitInclusiveNL rest with
      | [] => [[x]]
      | l :: ls => (x :: l) :: ls := by
  simp [splitInclusiveNL, hx]

theorem splitInclusiveNL_subset :
    ∀ (s : List Char) (p : List Char), p ∈ splitInclusiveNL s → ∀ c ∈ p, c ∈ s := by
  intro s
  induction s with
  | nil => intro p hp; simp [splitInclusiveNL] at hp
  | cons x rest ih =>
    intro p hp c hc
    by_cases hx : x = '\n'
    · subst hx
      rw [splitInclusiveNL_cons_newline] at hp
      rcases List.mem_cons.mp hp with h | h
      · subst h
        rcases List.mem_cons.mp hc with h2 | h2
        · subst h2; exact List.mem_cons_self _ _
        · simp at h2
      · exact List.mem_cons_of_mem _ (ih p h c hc)
    · rw [splitInclusiveNL_cons_other x rest hx] at hp
      cases hrest : splitInclusiveNL rest with
      | nil =>
        rw [hrest] at hp
        simp at hp
        subst hp
        rcases List.mem_cons.mp hc with h2 | h2
        · subst h2; exact List.mem_cons_self _ _
        · simp at h2
      | cons l ls =>
        rw [hrest] at hp
        rcases List.mem_cons.mp hp with h | h
        · subst h
          rcases List.mem_cons.mp hc with h2 | h2
          · subst h2; exact List.mem_cons_self _ _
          · exact List.mem_cons_of_mem _
              (ih l (by rw [hrest]; exact List.mem_cons_self _ _) c h2)
        · exact List.mem_cons_of_mem _
            (ih p (by rw [hrest]; exact List.mem_cons_of_mem _ h) c hc)

theorem splitInclusiveNL_piece :
    ∀ (s : List Char) (p : List Char), p ∈ splitInclusiveNL s →
      ('\n' ∉ p) ∨ (∃ q, p = q ++ ['\n'] ∧ '\n' ∉ q) := by
  intro s
  induction s with
  | nil => intro p hp; simp [splitInclusiveNL] at hp
  | cons x rest ih =>
    intro p hp
    by_cases hx : x = '\n'
    · subst hx
      rw [splitInclusiveNL_cons_newline] at hp
      rcases List.mem_cons.mp hp with h | h
      · subst h
        exact Or.inr ⟨[], rfl, by simp⟩
      · exact ih p h
    · rw [splitInclusiveNL_cons_other x rest hx] at hp
      cases hrest : splitInclusiveNL rest with
      | nil =>
        rw [hrest] at hp
        simp at hp
        subst hp
        exact Or.inl (by simp [hx, Ne.symm hx])
      | cons l ls =>
        rw [hrest] at hp
        rcases List.mem_cons.mp hp with h | h
        · subst h
          rcases ih l (by rw [hrest]; exact List.mem_cons_self _ _) with h2 | ⟨q, hq, hq2⟩
          · refine Or.inl ?_
            intro hmem
            rcases List.mem_cons.mp hmem with h3 | h3
            · exact hx h3.symm
            · exact h2 h3
          · refine Or.inr ⟨x :: q, by rw [hq]; simp, ?_⟩
            intro hmem
            rcases List.mem_cons.mp hmem with h3 | h3
            · exact hx h3.symm
            · exact hq2 h3
        · exact ih p (by rw [hrest]; exact List.mem_cons_of_mem _ h)

theorem splitInclusiveNL_append_newline :
    ∀ (l t : List Char), '\n' ∉ l →
      splitInclusiveNL (l ++ '\n' :: t) = (l ++ ['\n']) :: splitInclusiveNL t := by
  intro l
  induction l with
  | nil => intro t h; simp [splitInclusiveNL_cons_newline]
  | cons c cs ih =>
    intro t h
    rw [List.mem_cons] at h
    push_neg at h
    obtain ⟨h1, h2⟩ := h
    have hc : c ≠ '\n' := fun hh => h1 hh.symm
    rw [List.cons_append, splitInclusiveNL_cons_other c _ hc, ih t h2]
    simp

theorem splitInclusiveNL_no_newline :
    ∀ (l : List Char), '\n' ∉ l → l ≠ [] → splitInclusiveNL l = [l] := by
  intro l
  induction l with
  | nil => intro _ h; exact absurd rfl h
  | cons c cs ih =>
    intro h _
    rw [List.mem_cons] at h
    push_neg at h
    obtain ⟨h1, h2⟩ := h
    have hc : c ≠ '\n' := fun hh => h1 hh.symm
    rw [splitInclusiveNL_cons_other c _ hc]
    cases cs with
    | nil => rfl
    | cons d ds => rw [ih h2 (List.cons_ne_nil _ _)]

theorem stripLineEnd_no_newline (l : List Char) (h : '\n' ∉ l) : stripLineEnd l = l := by
  unfold stripLineEnd
  split
  · next rest hrev =>
    exact absurd (List.mem_reverse.mp (by rw [hrev]; exact List.mem_cons_self _ _)) h
  · rfl

theorem stripLineEnd_append_newline (l : List Char) (h : l.getLast? ≠ some '\r') :
    stripLineEnd (l ++ ['\n']) = l := by
  have hrev : (l ++ ['\n']).reverse = '\n' :: l.reverse := by simp
  unfold stripLineEnd
  rw [hrev]
  split
  · next rest hr =>
    injection hr with _ hr2
    subst hr2
    split
    · next rest2 hr3 =>
      exfalso
      apply h
      rw [← List.head?_reverse, hr3]
      rfl
    · simp
  · next hne => exact absurd rfl (hne l.reverse)

theorem stripLineEnd_subset (l : List Char) : ∀ c ∈ stripLineEnd l, c ∈ l := by
  intro c hc
  unfold stripLineEnd at hc
  split at hc
  · next rest hr =>
    split at hc
    · next rest2 =>
      refine List.mem_reverse.mp ?_
      rw [hr]
      exact List.mem_cons_of_mem _ (List.mem_cons_of_mem _ (List.mem_reverse.mp hc))
    · next =>
      refine List.mem_reverse.mp ?_
      rw [hr]
      exact List.mem_cons_of_mem _ (List.mem_reverse.mp hc)
  · exact hc

theorem stripLineEnd_append_newline_subset (q : List Char) :
    ∀ c ∈ stripLineEnd (q ++ ['\n']), c ∈ q := by
  intro c hc
  have hrev : (q ++ ['\n']).reverse = '\n' :: q.reverse := by simp
  unfold stripLineEnd at hc
  rw [hrev] at hc
  split at hc
  · next rest hr =>
    injection hr with _ hr2
    subst hr2
    split at hc
    · next rest2 hr3 =>
      refine List.mem_reverse.mp ?_
      rw [hr3]
      exact List.mem_cons_of_mem _ (List.mem_reverse.mp hc)
    · next =>
      rw [List.reverse_reverse] at hc
      exact hc
  · next hne => exact absurd rfl (hne q.reverse)

theorem strLines_no_newline (s : List Char) : ∀ l ∈ strLines s, '\n' ∉ l := by
  intro l hl
  obtain ⟨p, hp, rfl⟩ := List.mem_map.mp hl
  rcases splitInclusiveNL_piece s p hp with h | ⟨q, rfl, hq⟩
  · rw [stripLineEnd_no_newline p h]
    exact h
  · intro hmem
    exact hq (stripLineEnd_append_newline_subset q '\n' hmem)

theorem strLines_subset (s : List Char) : ∀ l ∈ strLines s, ∀ c ∈ l, c ∈ s := by
  intro l hl c hc
  obtain ⟨p, hp, rfl⟩ := List.mem_map.mp hl
  exact splitInclusiveNL_subset s p hp c (stripLineEnd_subset p c hc)

theorem joinNL_cons_cons (l m : List Char) (ls : List (List Char)) :
    joinNL (l :: m :: ls) = l ++ '\n' :: joinNL (m :: ls) := rfl

theorem strLines_joinNL :
    ∀ (ls : List (List Char)), (∀ l ∈ ls, '\n' ∉ l) →
      (∀ l ∈ ls, l.getLast? ≠ some '\r') → ls.getLast? ≠ some [] →
      strLines (joinNL ls) = ls := by
  intro ls
  induction ls with
  | nil => intro _ _ _; rfl
  | cons l ls ih =>
    intro h1 h2 h3
    cases ls with
    | nil =>
      have hne : l ≠ [] := by
        intro hl
        exact h3 (by rw [hl]; rfl)
      show strLines (joinNL [l]) = [l]
      have hj : joinNL [l] = l := rfl
      rw [hj]
      unfold strLines
      rw [splitInclusiveNL_no_newline l (h1 l (List.mem_cons_self _ _)) hne]
      simp [stripLineEnd_no_newline l (h1 l (List.mem_cons_self _ _))]
    | cons m ms =>
      rw [joinNL_cons_cons]
      unfold strLines
      rw [splitInclusiveNL_append_newline l (joinNL (m :: ms))
        (h1 l (List.mem_cons_self _ _))]
      rw [List.map_cons]
      rw [stripLineEnd_append_newline l (h2 l (List.mem_cons_self _ _))]
      have ihh := ih (fun x hx => h1 x (List.mem_cons_of_mem _ hx))
        (fun x hx => h2 x (List.mem_cons_of_mem _ hx))
        (by rw [List.getLast?_cons_cons] at h3; exact h3)
      rw [show List.map stripLineEnd (splitInclusiveNL (joinNL (m :: ms))) =
        strLines (joinNL (m :: ms)) from rfl]
      rw [ihh]

theorem mem_of_getLast?_eq (l : List Char) (c : Char) (h : l.getLast? = some c) :
    c ∈ l := by
  rw [← List.head?_reverse] at h
  cases hrev : l.reverse with
  | nil => rw [hrev] at h; simp at h
  | cons x xs =>
    rw [hrev] at h
    injection h with h
    subst h
    exact List.mem_reverse.mp (by rw [hrev]; exact List.mem_cons_self _ _)

theorem processDiffLine_mem (l : List Char) (c : Char) (hc : c ∈ processDiffLine l) :
    c ∈ l ∨ c ∈ "[ADDED_LINE]: ".toList ∨ c ∈ "[REMOVED_LINE]: ".toList := by
  unfold processDiffLine at hc
  split at hc
  · exact Or.inl hc
  · split at hc
    · rcases List.mem_append.mp hc with h | h
      · exact Or.inr (Or.inl h)
      · exact Or.inl (List.mem_of_mem_tail h)
    · split at hc
      · rcases List.mem_append.mp hc with h | h
        · exact Or.inr (Or.inr h)
        · exact Or.inl (List.mem_of_mem_tail h)
      · exact Or.inl hc

theorem processDiffLine_no_newline (l : List Char) (h : '\n' ∉ l) :
    '\n' ∉ processDiffLine l := by
  intro hmem
  rcases processDiffLine_mem l '\n' hmem with h1 | h1 | h1
  · exact h h1
  · exact absurd h1 (by decide)
  · exact absurd h1 (by decide)

theorem processDiffLine_no_cr (l : List Char) (h : '\r' ∉ l) :
    '\r' ∉ processDiffLine l := by
  intro hmem
  rcases processDiffLine_mem l '\r' hmem with h1 | h1 | h1
  · exact h h1
  · exact absurd h1 (by decide)
  · exact absurd h1 (by decide)

theorem processDiffLine_ne_nil (l : List Char) (h : l ≠ []) : processDiffLine l ≠ [] := by
  unfold processDiffLine
  split
  · exact h
  · split
    · intro hx
      rcases List.append_eq_nil.mp hx with ⟨h1, _⟩
      exact absurd h1 (by decide)
    · split
      · intro hx
        rcases List.append_eq_nil.mp hx with ⟨h1, _⟩
        exact absurd h1 (by decide)
      · exact h

/-- Claim C8 counterexample: for the input `"\n"` the output of
`preprocess_diff_for_ai` is the empty string, which has 0 lines while the
input has 1 line — the output does NOT consist of exactly as many lines as
the input. -/
theorem claim_C8_counterexample :
    (strLines (preprocess_diff_for_ai ['\n'])).length = 0 ∧
    (strLines ['\n']).length = 1 := by decide

/-- Claim C8 (amended): for inputs containing no carriage return and whose
last line is non-empty, splitting the output of `preprocess_diff_for_ai`
back into lines yields exactly the per-line transforms of the input lines,
in order — so the output consists of exactly as many lines as the input,
each transformed independently, joined with single newline separators; empty
input yields empty output.  (When the input's last line is empty, the final
join re-parses to one fewer line, as the counterexample shows.) -/
theorem claim_C8 (d : List Char) (h1 : '\r' ∉ d)
    (h2 : (strLines d).getLast? ≠ some []) :
    strLines (preprocess_diff_for_ai d) = (strLines d).map processDiffLine ∧
    (strLines (preprocess_diff_for_ai d)).length = (strLines d).length ∧
    preprocess_diff_for_ai [] = [] := by
  have key : strLines (joinNL ((strLines d).map processDiffLine)) =
      (strLines d).map processDiffLine := by
    apply strLines_joinNL
    · intro l hl
      obtain ⟨l0, hl0, rfl⟩ := List.mem_map.mp hl
      exact processDiffLine_no_newline l0 (strLines_no_newline d l0 hl0)
    · intro l hl hlast
      obtain ⟨l0, hl0, rfl⟩ := List.mem_map.mp hl
      have hcr0 : '\r' ∉ l0 := fun hx => h1 (strLines_subset d l0 hl0 '\r' hx)
      exact processDiffLine_no_cr l0 hcr0 (mem_of_getLast?_eq _ _ hlast)
    · rw [List.getLast?_map]
      intro hx
      cases hlast : (strLines d).getLast? with
      | none => rw [hlast] at hx; simp at hx
      | some last =>
        rw [hlast] at hx
        simp only [Option.map_some'] at hx
        injection hx with hx
        have hl : last = [] := by
          by_contra hne
          exact processDiffLine_ne_nil last hne hx
        subst hl
        exact h2 hlast
  refine ⟨key, ?_, rfl⟩
  rw [show strLines (preprocess_diff_for_ai d) = (strLines d).map processDiffLine
    from key]
  rw [List.length_map]

theorem claim_C8_witness :
    ('\r' ∉ "+a\n-b\n c".toList) ∧
    ((strLines "+a\n-b\n c".toList).getLast? ≠ some []) ∧
    strLines (preprocess_diff_for_ai "+a\n-b\n c".toList) =
      (strLines "+a\n-b\n c".toList).map processDiffLine :=
  ⟨by decide, by decide, (claim_C8 "+a\n-b\n c".toList (by decide) (by decide)).1⟩
